import Mathlib

/-!
Verification of the NTI score component (`src/static/nti-score-component.js`):
the trigger-span highlighter (`highlightWords`), the local text enrichment
(`enrichText`) and the verdict renderer (`render`).

Strings are modelled as `List Char` (the `data` of a Lean `String`); the
source file's phrase tables and algorithms are transcribed directly.  DOM
output is modelled by its data content: `render` produces a presentation
model (verdict text and class, checks, metrics, failure-mode rows, tilt rows,
footer) instead of an HTML element; `highlightWords` produces the sequence of
(text, isMatch) segments whose texts the JS code escapes and concatenates.
-/

namespace NTI

/-- JS `\s` (the whitespace class of `String.prototype.split(/\s+/)`),
by code point. -/
def isWs (c : Char) : Bool :=
  c.toNat = 9 || c.toNat = 10 || c.toNat = 11 || c.toNat = 12 || c.toNat = 13 ||
  c.toNat = 32 || c.toNat = 160 || c.toNat = 5760 ||
  (8192 ≤ c.toNat && c.toNat ≤ 8202) ||
  c.toNat = 8232 || c.toNat = 8233 || c.toNat = 8239 || c.toNat = 8287 ||
  c.toNat = 12288 || c.toNat = 65279

/-- `text.toLowerCase()` (the source text is ASCII; Lean's `Char.toLower`
is the basic-latin case map). -/
def lowerOf (t : List Char) : List Char := t.map Char.toLower

/-- Fuel-indexed worker for `indexOfFrom` (structural recursion so that the
kernel can evaluate it); any `fuel ≥ hay.length + 1 - i` gives the search's
value. -/
def indexOfFromAux (hay pat : List Char) : Nat → Nat → Option Nat
  | _, 0 => none
  | i, fuel + 1 =>
    if i + pat.length ≤ hay.length then
      if pat.isPrefixOf (hay.drop i) then some i
      else indexOfFromAux hay pat (i + 1) fuel
    else none

/-- JS `hay.indexOf(pat, i)`: the least index `j ≥ i` at which `pat` occurs
in `hay`, or `none`. -/
def indexOfFrom (hay pat : List Char) (i : Nat) : Option Nat :=
  indexOfFromAux hay pat i (hay.length + 1 - i)

theorem indexOfFromAux_adequate (hay pat : List Char) :
    ∀ fuel fuel' i, hay.length + 1 - i ≤ fuel → hay.length + 1 - i ≤ fuel' →
      indexOfFromAux hay pat i fuel = indexOfFromAux hay pat i fuel' := by
  intro fuel
  induction fuel with
  | zero =>
    intro fuel' i h _
    cases fuel' with
    | zero => rfl
    | succ f' =>
      show none = indexOfFromAux hay pat i (f' + 1)
      simp only [indexOfFromAux]
      rw [if_neg (by omega)]
  | succ f ih =>
    intro fuel' i h h'
    cases fuel' with
    | zero =>
      simp only [indexOfFromAux]
      rw [if_neg (by omega)]
    | succ f' =>
      simp only [indexOfFromAux]
      by_cases hb : i + pat.length ≤ hay.length
      · rw [if_pos hb, if_pos hb]
        by_cases hp : pat.isPrefixOf (hay.drop i) = true
        · rw [if_pos hp, if_pos hp]
        · rw [if_neg hp, if_neg hp]
          exact ih f' (i + 1) (by omega) (by omega)
      · rw [if_neg hb, if_neg hb]

/-- The defining equation of the `indexOf` search. -/
theorem indexOfFrom_eq (hay pat : List Char) (i : Nat) :
    indexOfFrom hay pat i =
      if i + pat.length ≤ hay.length then
        if pat.isPrefixOf (hay.drop i) then some i
        else indexOfFrom hay pat (i + 1)
      else none := by
  unfold indexOfFrom
  cases hf : hay.length + 1 - i with
  | zero =>
    rw [if_neg (by omega)]
    rfl
  | succ f =>
    simp only [indexOfFromAux]
    by_cases hb : i + pat.length ≤ hay.length
    · rw [if_pos hb, if_pos hb]
      by_cases hp : pat.isPrefixOf (hay.drop i) = true
      · rw [if_pos hp, if_pos hp]
      · rw [if_neg hp, if_neg hp]
        exact indexOfFromAux_adequate hay pat f (hay.length + 1 - (i + 1)) (i + 1)
          (by omega) (by omega)
    · rw [if_neg hb, if_neg hb]

/-- Full specification of a successful `indexOfFrom` search: the found index
is at least the start index, in bounds, an occurrence, and the least such. -/
theorem indexOfFrom_spec (hay pat : List Char) :
    ∀ n i j, hay.length + 1 - i ≤ n → indexOfFrom hay pat i = some j →
      i ≤ j ∧ j + pat.length ≤ hay.length ∧ pat.isPrefixOf (hay.drop j) = true ∧
        ∀ k, i ≤ k → k < j → pat.isPrefixOf (hay.drop k) = false := by
  intro n
  induction n with
  | zero =>
    intro i j hn h
    rw [indexOfFrom_eq, if_neg (by omega)] at h
    exact absurd h (by simp)
  | succ n ih =>
    intro i j hn h
    rw [indexOfFrom_eq] at h
    by_cases hb : i + pat.length ≤ hay.length
    · rw [if_pos hb] at h
      by_cases hp : pat.isPrefixOf (hay.drop i) = true
      · rw [if_pos hp] at h
        cases h
        exact ⟨le_rfl, hb, hp, fun k hk1 hk2 => absurd hk2 (by omega)⟩
      · rw [if_neg hp] at h
        obtain ⟨h1, h2, h3, h4⟩ := ih (i + 1) j (by omega) h
        refine ⟨by omega, h2, h3, fun k hk1 hk2 => ?_⟩
        by_cases hki : k = i
        · subst hki
          exact Bool.eq_false_iff.mpr hp
        · exact h4 k (by omega) hk2
    · rw [if_neg hb] at h
      exact absurd h (by simp)

theorem indexOfFrom_le_of_some {hay pat : List Char} {i j : Nat}
    (h : indexOfFrom hay pat i = some j) : i ≤ j :=
  (indexOfFrom_spec hay pat (hay.length + 1 - i) i j le_rfl h).1

theorem indexOfFrom_bound_of_some {hay pat : List Char} {i j : Nat}
    (h : indexOfFrom hay pat i = some j) : j + pat.length ≤ hay.length :=
  (indexOfFrom_spec hay pat (hay.length + 1 - i) i j le_rfl h).2.1

theorem indexOfFrom_prefix_of_some {hay pat : List Char} {i j : Nat}
    (h : indexOfFrom hay pat i = some j) : pat.isPrefixOf (hay.drop j) = true :=
  (indexOfFrom_spec hay pat (hay.length + 1 - i) i j le_rfl h).2.2.1

theorem indexOfFrom_min_of_some {hay pat : List Char} {i j : Nat}
    (h : indexOfFrom hay pat i = some j) :
    ∀ k, i ≤ k → k < j → pat.isPrefixOf (hay.drop k) = false :=
  (indexOfFrom_spec hay pat (hay.length + 1 - i) i j le_rfl h).2.2.2

/-- A search that starts at or before an occurrence succeeds, at or before
that occurrence. -/
theorem indexOfFrom_complete (hay pat : List Char) :
    ∀ n i j, hay.length + 1 - i ≤ n → i ≤ j → j + pat.length ≤ hay.length →
      pat.isPrefixOf (hay.drop j) = true →
      ∃ k, indexOfFrom hay pat i = some k ∧ k ≤ j := by
  intro n
  induction n with
  | zero =>
    intro i j hn hij hj _
    omega
  | succ n ih =>
    intro i j hn hij hj hp
    have hb : i + pat.length ≤ hay.length := by omega
    by_cases hpi : pat.isPrefixOf (hay.drop i) = true
    · refine ⟨i, ?_, hij⟩
      rw [indexOfFrom_eq, if_pos hb, if_pos hpi]
    · have hne : i ≠ j := fun he => hpi (he ▸ hp)
      obtain ⟨k, hk, hkj⟩ := ih (i + 1) j (by omega) (by omega) hj hp
      refine ⟨k, ?_, hkj⟩
      rw [indexOfFrom_eq, if_pos hb, if_neg hpi]
      exact hk

/-- JS `hay.includes(pat)` = `hay.indexOf(pat) !== -1`. -/
def jsIncludes (hay pat : List Char) : Bool := (indexOfFrom hay pat 0).isSome

/-- `String.prototype.includes` on Lean strings (used for `st.includes(...)`
state classification in the renderer). -/
def strIncludes (s pat : String) : Bool := jsIncludes s.data pat.data

/-- JS `s.substring(a, b)`: both indices clamped to `[0, s.length]` and
swapped when out of order. -/
def jsSubstring (s : List Char) (a b : Nat) : List Char :=
  let a' := min a s.length
  let b' := min b s.length
  (s.take (max a' b')).drop (min a' b')

/-- JS `s.split(/\s+/)` worker: `cur` is the reversed current field.  On a
whitespace character the current field is emitted and the rest of the
whitespace run skipped; boundary whitespace yields empty fields.  The fuel
(any value at least `s.length`) makes the recursion structural. -/
def splitWsGoAux : Nat → List Char → List Char → List (List Char)
  | 0, cur, _ => [cur.reverse]
  | fuel + 1, cur, s =>
    match s with
    | [] => [cur.reverse]
    | c :: rest =>
      if isWs c then cur.reverse :: splitWsGoAux fuel [] (rest.dropWhile isWs)
      else splitWsGoAux fuel (c :: cur) rest

/-- JS `s.split(/\s+/)`. -/
def splitWs (s : List Char) : List (List Char) := splitWsGoAux s.length [] s

/-- `s.replace(',', '')`: remove the first comma, if any. -/
def removeFirstComma : List Char → List Char
  | [] => []
  | c :: rest => if c = ',' then rest else c :: removeFirstComma rest

/-- `escHtml` (`div.textContent = s; div.innerHTML`): HTML text-node
serialisation escapes `&`, `<`, `>` and non-breaking space. -/
def escChar (c : Char) : List Char :=
  if c = '&' then "&amp;".data
  else if c = '<' then "&lt;".data
  else if c = '>' then "&gt;".data
  else if c.toNat = 160 then "&nbsp;".data
  else [c]

/-- `escHtml` over a whole string. -/
def escHtml (s : String) : String := ⟨(s.data.map escChar).flatten⟩

/-! ## Static tables (`TILT_DEFS`, `TILT_TRIGGERS`, lexicons) -/

/-- `TILT_DEFS[tag]`, reduced to (label, short description); the icon glyphs
are purely decorative and omitted. -/
def TILT_DEFS (tag : String) : Option (String × String) :=
  if tag = "T1_REASSURANCE_DRIFT" then
    some ("Reassurance Drift", "Reassurance used instead of evidence.")
  else if tag = "T2_CERTAINTY_INFLATION" then
    some ("Certainty Inflation", "Claims certainty without proof.")
  else if tag = "T3_SCOPE_EXPANSION" then
    some ("Scope Expansion", "Widens the topic without acknowledging it.")
  else if tag = "T4_CAPABILITY_OVERREACH" then
    some ("Capability Overreach", "Promises beyond what can be delivered.")
  else if tag = "T5_ABSOLUTE_LANGUAGE" then
    some ("Absolute Language", "Uses never/always/every without evidence.")
  else if tag = "T6_CONSTRAINT_DEFERRAL" then
    some ("Constraint Deferral", "Pushes limits to an unspecified later.")
  else if tag = "T7_CATEGORY_BLEND" then
    some ("Category Blend", "Mixes unrelated things to obscure meaning.")
  else if tag = "T8_PRESSURE_OPTIMIZATION" then
    some ("Pressure Pattern", "Uses urgency or social proof without substance.")
  else if tag = "T9_SCOPE_EXPANSION" then
    some ("Scope Expansion", "Widens scope without acknowledging the shift.")
  else if tag = "T10_AUTHORITY_IMPOSITION" then
    some ("Authority Imposition", "Defers to unnamed authority.")
  else none

/-- `TILT_TRIGGERS[tag] || []`: the trigger-phrase table. -/
def TILT_TRIGGERS (tag : String) : List String :=
  if tag = "T1_REASSURANCE_DRIFT" then
    ["don't worry", "rest assured", "no problem", "it's okay", "everything is fine",
     "i assure you", "trust me", "under control", "handled", "taken care"]
  else if tag = "T2_CERTAINTY_INFLATION" then
    ["guarantee", "guaranteed", "will definitely", "without a doubt", "no question",
     "100%", "certainly", "absolutely"]
  else if tag = "T3_SCOPE_EXPANSION" then
    ["also", "additionally", "furthermore", "moreover", "not only", "on top of",
     "plus", "another thing", "while we're at it"]
  else if tag = "T4_CAPABILITY_OVERREACH" then
    ["we can handle", "no problem", "easy", "simple", "of course", "absolutely",
     "definitely can"]
  else if tag = "T5_ABSOLUTE_LANGUAGE" then
    ["never", "always", "every", "all", "none", "no one", "everyone", "everything",
     "nothing", "impossible", "completely", "entirely"]
  else if tag = "T6_CONSTRAINT_DEFERRAL" then
    ["later", "eventually", "phase 2", "we'll figure it out", "future iteration",
     "down the road", "at some point", "soon"]
  else if tag = "T7_CATEGORY_BLEND" then
    ["kind of", "sort of", "basically", "overall", "in other words",
     "at the end of the day"]
  else if tag = "T8_PRESSURE_OPTIMIZATION" then
    ["act now", "don't miss", "limited time", "running out", "already joined",
     "momentum", "urgent", "immediately"]
  else if tag = "T9_SCOPE_EXPANSION" then
    ["also", "additionally", "moreover", "while we're at it", "on top of that",
     "not only"]
  else if tag = "T10_AUTHORITY_IMPOSITION" then
    ["experts agree", "industry standard", "research shows", "studies show",
     "best practice", "widely accepted", "everyone knows"]
  else []

/-- `VAGUE_WORDS`. -/
def VAGUE_WORDS : List String :=
  ["values", "opportunity", "community", "leadership", "service", "vision",
   "future", "better", "great", "special", "incredible", "amazing", "wonderful",
   "fantastic", "beautiful", "important", "committed", "dedicated", "passionate",
   "believe", "proud", "honored", "privilege", "thrilled"]

/-- `SPECIFIC_WORDS`. -/
def SPECIFIC_WORDS : List String :=
  ["percent", "million", "billion", "budget", "tax", "fund", "program", "plan",
   "policy", "reduce", "increase", "build", "hire", "cut", "invest", "allocate",
   "deadline", "quarter", "department", "ordinance", "resolution", "vote",
   "approve", "audit", "review"]

/-- `EMO_HIGH`. -/
def EMO_HIGH : List String :=
  ["outraged", "disgusted", "thrilled", "devastated", "ecstatic", "furious",
   "terrified", "horrified", "elated", "desperate"]

/-- `EMO_MOD`. -/
def EMO_MOD : List String :=
  ["worried", "excited", "frustrated", "disappointed", "proud", "grateful",
   "angry", "scared", "hopeful", "concerned"]

/-! ## `enrichText` -/

/-- JS `Math.round` on an exact rational: round half toward positive
infinity. -/
def jsRound (q : ℚ) : ℤ := ⌊q + 1 / 2⌋

/-- The result record of `enrichText`. -/
structure Enrichment where
  vague : Nat
  specific : Nat
  vagueList : List String
  specificList : List String
  emo : ℤ
  wordCount : Nat
deriving DecidableEq, Repr

/-- `enrichText(text)` transcribed from the source: lowercase, split on
whitespace runs, count distinct lexicon words occurring as substrings, and
the emotional-charge value `Math.min(100, Math.round((hH*3+mH*1.5)/total*800))`
(computed here in exact rational arithmetic). -/
def enrichText (text : List Char) : Enrichment :=
  let lower := lowerOf text
  let words := splitWs lower
  let total := max words.length 1
  let vagueList := VAGUE_WORDS.filter (fun w => jsIncludes lower w.data)
  let specificList := SPECIFIC_WORDS.filter (fun w => jsIncludes lower w.data)
  let hH := (EMO_HIGH.filter (fun w => jsIncludes lower w.data)).length
  let mH := (EMO_MOD.filter (fun w => jsIncludes lower w.data)).length
  { vague := vagueList.length
    specific := specificList.length
    vagueList := vagueList
    specificList := specificList
    emo := min 100 (jsRound (((hH : ℚ) * 3 + (mH : ℚ) * (3 / 2)) / (total : ℚ) * 800))
    wordCount := words.length }

/-! ## `highlightWords` -/

/-- One (text, isMatch) segment of the highlighter's output.  The JS code
emits `escHtml(segment)` for non-matches and `<mark>escHtml(segment)</mark>`
for matches; the segmentation itself is the modelled contract. -/
structure Segment where
  text : List Char
  isMatch : Bool
deriving DecidableEq, Repr

/-- `[...triggers].sort((a, b) => b.length - a.length)`: sort the trigger
list longest-first (insertion sort here; the merged spans do not depend on
the order of triggers of equal length). -/
def sortedTriggers (tag : String) : List (List Char) :=
  List.insertionSort (fun a b => b.length ≤ a.length) ((TILT_TRIGGERS tag).map String.data)

/-- Fuel-indexed worker for the scan loop. -/
def collectMarksAux (hay pat : List Char) : Nat → Nat → List (Nat × Nat)
  | _, 0 => []
  | i, fuel + 1 =>
    match indexOfFrom hay pat i with
    | none => []
    | some j => (j, j + pat.length) :: collectMarksAux hay pat (j + 1) fuel

/-- The scan loop: for one trigger, push `{start: i, end: i + tr.length}` for
each occurrence, resuming the `indexOf` search at `i + 1` (one past the
occurrence's start). -/
def collectMarks (hay pat : List Char) (i : Nat) : List (Nat × Nat) :=
  collectMarksAux hay pat i (hay.length + 1 - i)

/-- All marks pushed by the `sorted.forEach` scan, in push order. -/
def scanMarks (lower : List Char) (triggers : List (List Char)) : List (Nat × Nat) :=
  triggers.foldl (fun acc tr => acc ++ collectMarks lower tr 0) []

/-- `marks.sort((a, b) => a.start - b.start)`: sort the marks by start
offset (the merged spans do not depend on the order of marks with equal
start). -/
def sortMarks (marks : List (Nat × Nat)) : List (Nat × Nat) :=
  List.insertionSort (fun a b => a.1 ≤ b.1) marks

/-- The merge loop over the sorted marks: `acc` is the merged list in
reverse.  A mark starting at or before the last merged span's end extends
that span's end to the max of the two ends; otherwise it is pushed. -/
def mergeMarks (acc : List (Nat × Nat)) : List (Nat × Nat) → List (Nat × Nat)
  | [] => acc.reverse
  | m :: rest =>
    match acc with
    | [] => mergeMarks [m] rest
    | l :: t =>
      if m.1 ≤ l.2 then mergeMarks ((l.1, max l.2 m.2) :: t) rest
      else mergeMarks (m :: l :: t) rest

/-- The merged spans `highlightWords` computes for a text and category. -/
def mergedSpans (text : List Char) (tag : String) : List (Nat × Nat) :=
  mergeMarks [] (sortMarks (scanMarks (lowerOf text) (sortedTriggers tag)))

/-- The emission loop: literal text before each merged span, the span's text
as a match, then the tail `text.substring(pos)`. -/
def segmentsFrom (text : List Char) (pos : Nat) : List (Nat × Nat) → List Segment
  | [] => [⟨jsSubstring text pos text.length, false⟩]
  | m :: rest =>
    ⟨jsSubstring text pos m.1, false⟩ :: ⟨jsSubstring text m.1 m.2, true⟩ ::
      segmentsFrom text m.2 rest

/-- `highlightWords(text, tiltTag)` as a sequence of segments. -/
def highlightWords (text : List Char) (tiltTag : String) : List Segment :=
  if (TILT_TRIGGERS tiltTag).isEmpty then [⟨text, false⟩]
  else segmentsFrom text 0 (mergedSpans text tiltTag)

/-- Concatenation of the segment texts, for the round-trip property. -/
def joinSegments (l : List Segment) : List Char :=
  (l.map Segment.text).flatten

/-! ## The `ScoredResult` input shape of `render`

Every nested field the renderer reads is optional (`a.b || {}`, `x ?? 0`,
`xs || []` defaulting in the source); numbers are modelled as integers. -/

/-- `data.nii`. -/
structure NIIBlock where
  nii_score : Option ℤ
  q1_constraints_explicit : Option ℤ
  q2_constraints_before_capability : Option ℤ
  q3_substitutes_after_enforcement : Option ℤ
deriving DecidableEq, Repr

/-- One entry of `data.parent_failure_modes`: the renderer probes the three
state keys `udds_state`, `dce_state`, `cca_state` on any entry. -/
structure FMEntry where
  udds_state : Option String
  dce_state : Option String
  cca_state : Option String
deriving DecidableEq, Repr

/-- `data.parent_failure_modes`. -/
structure FailureModes where
  UDDS : Option FMEntry
  DCE : Option FMEntry
  CCA : Option FMEntry
deriving DecidableEq, Repr

/-- `data.interaction_matrix`. -/
structure InteractionMatrix where
  dominance_detected : Option (List String)
deriving DecidableEq, Repr

/-- `layers.L0_reality_substrate`. -/
structure L0Block where
  constraints_found : Option (List String)
deriving DecidableEq, Repr

/-- `layers.L1_input_freeze`. -/
structure L1Block where
  objective : Option String
deriving DecidableEq, Repr

/-- `layers.L2_interpretive_framing`. -/
structure L2Block where
  hedge_markers : Option (List String)
  reassurance_markers : Option (List String)
  category_blend_markers : Option (List String)
deriving DecidableEq, Repr

/-- `data.layers`. -/
structure LayersBlock where
  L0_reality_substrate : Option L0Block
  L1_input_freeze : Option L1Block
  L2_interpretive_framing : Option L2Block
deriving DecidableEq, Repr

/-- `data.telemetry`. -/
structure Telemetry where
  latency_ms : Option ℤ
deriving DecidableEq, Repr

/-- The scored-result object consumed by `render`. -/
structure ScoredResult where
  nii : Option NIIBlock
  parent_failure_modes : Option FailureModes
  tilt_taxonomy : Option (List String)
  interaction_matrix : Option InteractionMatrix
  layers : Option LayersBlock
  telemetry : Option Telemetry
  version : Option String
deriving DecidableEq, Repr

/-- The all-absent scored result (`{}` everywhere). -/
def emptyResult : ScoredResult :=
  ⟨none, none, none, none, none, none, none⟩

/-! ## The renderer's derivations -/

/-- JS `a || b` on an optional string: `undefined` and `''` are falsy. -/
def jsOrStr (a : Option String) (b : String) : String :=
  match a with
  | none => b
  | some s => if s = "" then b else s

/-- The state string the `fmCount` filter reads off one failure-mode entry:
`fm[k].udds_state || fm[k].dce_state || fm[k].cca_state` (empty when the
entry is absent). -/
def fmChainState (e : Option FMEntry) : String :=
  match e with
  | none => ""
  | some o => jsOrStr o.udds_state (jsOrStr o.dce_state (jsOrStr o.cca_state ""))

/-- `fm[k]` for `k` in `['UDDS','DCE','CCA']`. -/
def fmGet (f : FailureModes) (k : String) : Option FMEntry :=
  if k = "UDDS" then f.UDDS
  else if k = "DCE" then f.DCE
  else if k = "CCA" then f.CCA
  else none

/-- `data.parent_failure_modes || {}`. -/
def failureModesOf (d : ScoredResult) : FailureModes :=
  d.parent_failure_modes.getD ⟨none, none, none⟩

/-- `l2.hedge_markers || []` (with `layers` and `L2` defaulted). -/
def hedgeMarkersOf (d : ScoredResult) : List String :=
  ((d.layers.bind LayersBlock.L2_interpretive_framing).bind L2Block.hedge_markers).getD []

/-- `l2.reassurance_markers || []`. -/
def reassuranceMarkersOf (d : ScoredResult) : List String :=
  ((d.layers.bind LayersBlock.L2_interpretive_framing).bind L2Block.reassurance_markers).getD []

/-- `data.tilt_taxonomy || []`. -/
def tiltOf (d : ScoredResult) : List String :=
  d.tilt_taxonomy.getD []

/-- `nii.q1_constraints_explicit ?? 0` and the other two flags. -/
def q1Of (d : ScoredResult) : ℤ :=
  (d.nii.bind NIIBlock.q1_constraints_explicit).getD 0

def q2Of (d : ScoredResult) : ℤ :=
  (d.nii.bind NIIBlock.q2_constraints_before_capability).getD 0

def q3Of (d : ScoredResult) : ℤ :=
  (d.nii.bind NIIBlock.q3_substitutes_after_enforcement).getD 0

/-- `issueCount`, line 83 of the source:
`(q1===0?1:0)+(q2===0?1:0)+(q3===0?1:0)+hedges.length+reassurances.length+tilt.length`. -/
def issueCount (d : ScoredResult) : Nat :=
  (if q1Of d = 0 then 1 else 0) + (if q2Of d = 0 then 1 else 0) +
    (if q3Of d = 0 then 1 else 0) +
    (hedgeMarkersOf d).length + (reassuranceMarkersOf d).length + (tiltOf d).length

/-- The filter body of line 84:
`st.includes('CONFIRMED') || st.includes('PROBABLE')` for the code's chained
state string. -/
def fmActive (d : ScoredResult) (k : String) : Bool :=
  let st := fmChainState (fmGet (failureModesOf d) k)
  strIncludes st "CONFIRMED" || strIncludes st "PROBABLE"

/-- `fmCount`, line 84 of the source: the number of the three codes whose
chained state string contains `CONFIRMED` or `PROBABLE`. -/
def fmCount (d : ScoredResult) : Nat :=
  (["UDDS", "DCE", "CCA"].filter (fmActive d)).length

/-- The verdict sentence and its CSS class, lines 85-88 of the source.  In
the warning branch the source splices `['']` (which stringifies to the empty
string) when `fmCount` is falsy and then applies `.replace(',','')`. -/
def verdictPair (ic fc : Nat) : String × String :=
  if ic = 0 ∧ fc = 0 then
    ("This message is structurally clean.", "nti-v-clean")
  else if fc ≥ 2 ∨ ic ≥ 6 then
    (toString ic ++ " structural issues. " ++ toString fc ++ " failure mode" ++
      (if fc ≠ 1 then "s" else "") ++ " active.", "nti-v-critical")
  else
    (⟨removeFirstComma (toString ic ++ " issue" ++ (if ic ≠ 1 then "s" else "") ++
      " found." ++
      (if fc ≠ 0 then
        " " ++ toString fc ++ " failure mode" ++ (if fc > 1 then "s" else "") ++ "."
      else "")).data⟩, "nti-v-warning")

/-! ## The presentation model produced by `render` -/

/-- One structural check emitted by `_ck(label, val, neutral)`. -/
structure CheckBlock where
  label : String
  cls : String
  txt : String
deriving DecidableEq, Repr

/-- `_ck`: class and text from truthiness of `val` unless neutral. -/
def _ck (label : String) (val : ℤ) (neutral : Bool) : CheckBlock :=
  { label := label
    cls := if neutral then "neutral" else if val ≠ 0 then "pass" else "fail"
    txt := if neutral then "NONE" else if val ≠ 0 then "YES" else "NO" }

/-- One metric card emitted by `_met(num, label, cls, items, isAmber)`. -/
structure MetricBlock where
  num : String
  label : String
  cls : String
  chipCls : String
  items : List String
deriving DecidableEq, Repr

/-- `_met`. -/
def _met (num label cls : String) (items : List String) (isAmber : Bool) : MetricBlock :=
  { num := num, label := label, cls := cls
    chipCls := if isAmber then "amber" else if cls = "good" then "green" else "muted"
    items := items }

/-- One failure-mode row emitted by `_fm(name, desc, obj, stateKey)`;
`desc` is displayed only when the row is active. -/
structure FMBlock where
  name : String
  label : String
  cls : String
  active : Bool
  desc : String
deriving DecidableEq, Repr

/-- `_fm`, lines 143-148 of the source: a missing entry renders CLEAR;
otherwise `st = obj[stateKey] || ''` is classified by substring
containment of `CONFIRMED` then `PROBABLE`. -/
def _fm (name desc : String) (obj : Option FMEntry) (stateKey : FMEntry → Option String) :
    FMBlock :=
  match obj with
  | none => { name := name, label := "CLEAR", cls := "green", active := false, desc := desc }
  | some o =>
    let st := (stateKey o).getD ""
    { name := name
      active := strIncludes st "CONFIRMED" || strIncludes st "PROBABLE"
      label := if strIncludes st "CONFIRMED" then "DETECTED"
        else if strIncludes st "PROBABLE" then "PROBABLE" else "CLEAR"
      cls := if strIncludes st "CONFIRMED" then "red"
        else if strIncludes st "PROBABLE" then "amber" else "green"
      desc := desc }

/-- One communication-habit row: label and description resolved through
`TILT_DEFS`, falling back to the tag with underscores replaced by spaces. -/
structure TiltRowBlock where
  tag : String
  label : String
  short : String
deriving DecidableEq, Repr

/-- `TILT_DEFS[t] || {label: t.replace(/_/g,' '), short: ''}`. -/
def tiltRowOf (t : String) : TiltRowBlock :=
  match TILT_DEFS t with
  | some d => { tag := t, label := d.1, short := d.2 }
  | none => { tag := t, label := ⟨t.data.map (fun c => if c = '_' then ' ' else c)⟩, short := "" }

/-- The full presentation model `render` builds into its HTML. -/
structure Presentation where
  verdict : String
  vClass : String
  issueCount : Nat
  fmCount : Nat
  checks : List CheckBlock
  constraintsFound : List String
  metrics : List MetricBlock
  fmRows : List FMBlock
  dominant : Option String
  tiltRows : List TiltRowBlock
  footerScore : ℤ
  footerScoreCls : String
  footerLat : String
  footerVer : String
  footerWords : Nat
  datasetOriginalText : String
  uid : String
deriving DecidableEq, Repr

/-- `render(data, originalText)` as a presentation model.  `rand` is the
six-character fragment `Math.random().toString(36).substring(2, 8)` drawn
at line 78 of the source; the element id is `'nti_' + rand`. -/
def renderModel (data : ScoredResult) (originalText : String) (rand : String) : Presentation :=
  let score : ℤ := (data.nii.bind NIIBlock.nii_score).getD 0
  let dom : List String :=
    ((data.interaction_matrix.bind InteractionMatrix.dominance_detected)).getD ["NONE"]
  let lat : String :=
    match data.telemetry.bind Telemetry.latency_ms with
    | some n => if n = 0 then "-" else toString n
    | none => "-"
  let ver := jsOrStr data.version "?"
  let enrich := enrichText originalText.data
  let constraints :=
    ((data.layers.bind LayersBlock.L0_reality_substrate).bind L0Block.constraints_found).getD []
  let hedges := hedgeMarkersOf data
  let reassurances := reassuranceMarkersOf data
  let objective :=
    ((data.layers.bind LayersBlock.L1_input_freeze).bind L1Block.objective).getD ""
  let ic := issueCount data
  let fc := fmCount data
  let vp := verdictPair ic fc
  let fm := failureModesOf data
  { verdict := vp.1
    vClass := vp.2
    issueCount := ic
    fmCount := fc
    checks :=
      [_ck "Constraints stated" (q1Of data) false,
       _ck "Constraints before promises" (q2Of data) false,
       _ck "Boundaries enforced" (q3Of data) false,
       _ck "Objective detected" (if objective ≠ "" then 1 else 0) (objective = "")]
    constraintsFound := constraints.map escHtml
    metrics :=
      [_met (toString hedges.length) "Hedge phrases"
         (if hedges.length ≠ 0 then "bad" else "good")
         (hedges.map (fun h => "\"" ++ escHtml h ++ "\"")) true,
       _met (toString reassurances.length) "False reassurances"
         (if reassurances.length ≠ 0 then "bad" else "good")
         (reassurances.map (fun r => "\"" ++ escHtml r ++ "\"")) true,
       _met (toString enrich.vague) "Vague words"
         (if enrich.vague > 2 then "bad" else if enrich.vague ≠ 0 then "warn" else "good")
         enrich.vagueList false,
       _met (toString enrich.specific) "Specific words"
         (if enrich.specific ≠ 0 then "good" else "warn") enrich.specificList false,
       _met (toString enrich.emo ++ "%") "Emotional charge"
         (if enrich.emo > 40 then "bad" else if enrich.emo > 15 then "warn" else "good")
         [] false,
       _met (toString enrich.wordCount) "Words" "neutral" [] false]
    fmRows :=
      [_fm "UDDS" "Substituted reassurance for substance" fm.UDDS FMEntry.udds_state,
       _fm "DCE" "Deferred the hard part to later" fm.DCE FMEntry.dce_state,
       _fm "CCA" "Collapsed constraints into vague agreement" fm.CCA FMEntry.cca_state]
    dominant :=
      if dom.head? = some "NONE" then none else some (String.intercalate " → " dom)
    tiltRows := (tiltOf data).map tiltRowOf
    footerScore := score
    footerScoreCls := if score ≥ 80 then "green" else if score ≥ 50 then "amber" else "red"
    footerLat := lat
    footerVer := ver
    footerWords := enrich.wordCount
    datasetOriginalText := originalText
    uid := "nti_" ++ rand }

/-- The presentation model with its random identifier blanked, for stating
which parts of `render`'s output are determined by `(data, originalText)`. -/
def eraseUid (p : Presentation) : Presentation :=
  { p with uid := "" }

/-- Modelled on the spec's wording of failure-mode state resolution (§4.2),
to be compared with the source's `_fm`: a missing entry is CLEAR/inactive;
otherwise a state containing `CONFIRMED` is active/red/DETECTED, else one
containing `PROBABLE` is active/amber/PROBABLE, else inactive/green/CLEAR. -/
def fmRowSpec (name desc : String) (obj : Option FMEntry)
    (stateKey : FMEntry → Option String) : FMBlock :=
  match obj with
  | none => { name := name, label := "CLEAR", cls := "green", active := false, desc := desc }
  | some o =>
    let st := (stateKey o).getD ""
    if strIncludes st "CONFIRMED" = true then
      { name := name, label := "DETECTED", cls := "red", active := true, desc := desc }
    else if strIncludes st "PROBABLE" = true then
      { name := name, label := "PROBABLE", cls := "amber", active := true, desc := desc }
    else
      { name := name, label := "CLEAR", cls := "green", active := false, desc := desc }

/-- A span is valid for a text length when it is ordered and in bounds. -/
def ValidMark (len : Nat) (m : Nat × Nat) : Prop := m.1 ≤ m.2 ∧ m.2 ≤ len

/-- The spans of a list are in bounds and each starts no earlier than `pos`
and no earlier than the previous span's end. -/
def spanChain (len : Nat) : Nat → List (Nat × Nat) → Prop
  | pos, [] => pos ≤ len
  | pos, m :: rest => pos ≤ m.1 ∧ m.1 ≤ m.2 ∧ m.2 ≤ len ∧ spanChain len m.2 rest

/-! ## Lemmas: the scan collects exactly the occurrences -/

theorem collectMarksAux_adequate (hay pat : List Char) :
    ∀ fuel fuel' i, hay.length + 1 - i ≤ fuel → hay.length + 1 - i ≤ fuel' →
      collectMarksAux hay pat i fuel = collectMarksAux hay pat i fuel' := by
  intro fuel
  induction fuel with
  | zero =>
    intro fuel' i h _
    cases fuel' with
    | zero => rfl
    | succ f' =>
      show ([] : List (Nat × Nat)) = collectMarksAux hay pat i (f' + 1)
      have hnone : indexOfFrom hay pat i = none := by
        rw [indexOfFrom_eq, if_neg (by omega)]
      simp only [collectMarksAux, hnone]
  | succ f ih =>
    intro fuel' i h h'
    cases fuel' with
    | zero =>
      have hnone : indexOfFrom hay pat i = none := by
        rw [indexOfFrom_eq, if_neg (by omega)]
      simp only [collectMarksAux, hnone]
    | succ f' =>
      simp only [collectMarksAux]
      cases hio : indexOfFrom hay pat i with
      | none => rfl
      | some j =>
        have h1 := indexOfFrom_le_of_some hio
        have h2 := indexOfFrom_bound_of_some hio
        exact congrArg _ (ih f' (j + 1) (by omega) (by omega))

theorem collectMarks_eq (hay pat : List Char) (i : Nat) :
    collectMarks hay pat i =
      match indexOfFrom hay pat i with
      | none => []
      | some j => (j, j + pat.length) :: collectMarks hay pat (j + 1) := by
  unfold collectMarks
  cases hf : hay.length + 1 - i with
  | zero =>
    have hnone : indexOfFrom hay pat i = none := by
      rw [indexOfFrom_eq, if_neg (by omega)]
    rw [hnone]
    rfl
  | succ f =>
    simp only [collectMarksAux]
    cases hio : indexOfFrom hay pat i with
    | none => rfl
    | some j =>
      have h1 := indexOfFrom_le_of_some hio
      have h2 := indexOfFrom_bound_of_some hio
      exact congrArg _ (collectMarksAux_adequate hay pat f (hay.length + 1 - (j + 1)) (j + 1)
        (by omega) (by omega))

theorem collectMarks_sound (hay pat : List Char) :
    ∀ n i, hay.length + 1 - i ≤ n → ∀ m ∈ collectMarks hay pat i,
      i ≤ m.1 ∧ m.2 = m.1 + pat.length ∧ m.2 ≤ hay.length ∧
        pat.isPrefixOf (hay.drop m.1) = true := by
  intro n
  induction n with
  | zero =>
    intro i hn m hm
    rw [collectMarks_eq] at hm
    cases hio : indexOfFrom hay pat i with
    | none => rw [hio] at hm; cases hm
    | some j =>
      have := indexOfFrom_bound_of_some hio
      have := indexOfFrom_le_of_some hio
      omega
  | succ n ih =>
    intro i hn m hm
    rw [collectMarks_eq] at hm
    cases hio : indexOfFrom hay pat i with
    | none => rw [hio] at hm; cases hm
    | some j =>
      rw [hio] at hm
      have hj1 := indexOfFrom_le_of_some hio
      have hj2 := indexOfFrom_bound_of_some hio
      rcases List.mem_cons.mp hm with rfl | hm'
      · exact ⟨hj1, rfl, hj2, indexOfFrom_prefix_of_some hio⟩
      · have := ih (j + 1) (by omega) m hm'
        exact ⟨by omega, this.2.1, this.2.2.1, this.2.2.2⟩

theorem collectMarks_complete (hay pat : List Char) :
    ∀ n i j, hay.length + 1 - i ≤ n → i ≤ j → j + pat.length ≤ hay.length →
      pat.isPrefixOf (hay.drop j) = true →
      (j, j + pat.length) ∈ collectMarks hay pat i := by
  intro n
  induction n with
  | zero =>
    intro i j hn hij hj _
    omega
  | succ n ih =>
    intro i j hn hij hj hp
    obtain ⟨k, hk, hkj⟩ := indexOfFrom_complete hay pat (hay.length + 1 - i) i j le_rfl hij hj hp
    have hik := indexOfFrom_le_of_some hk
    have hkb := indexOfFrom_bound_of_some hk
    rw [collectMarks_eq, hk]
    by_cases hkeq : k = j
    · subst hkeq
      exact List.mem_cons_self _ _
    · exact List.mem_cons_of_mem _ (ih (k + 1) j (by omega) (by omega) hj hp)

theorem scanMarks_eq_flatten (lower : List Char) (triggers : List (List Char)) :
    scanMarks lower triggers =
      (triggers.map (fun tr => collectMarks lower tr 0)).flatten := by
  suffices h : ∀ (l : List (List Char)) (init : List (Nat × Nat)),
      l.foldl (fun acc tr => acc ++ collectMarks lower tr 0) init =
        init ++ (l.map (fun tr => collectMarks lower tr 0)).flatten by
    simpa using h triggers []
  intro l
  induction l with
  | nil => simp
  | cons tr l ih =>
    intro init
    simp [List.foldl_cons, ih, List.append_assoc]

theorem mem_scanMarks {lower : List Char} {triggers : List (List Char)} {m : Nat × Nat} :
    m ∈ scanMarks lower triggers ↔ ∃ tr ∈ triggers, m ∈ collectMarks lower tr 0 := by
  rw [scanMarks_eq_flatten, List.mem_flatten]
  constructor
  · rintro ⟨l, hl, hm⟩
    obtain ⟨tr, htr, rfl⟩ := List.mem_map.mp hl
    exact ⟨tr, htr, hm⟩
  · rintro ⟨tr, htr, hm⟩
    exact ⟨_, List.mem_map_of_mem _ htr, hm⟩

theorem scanMarks_valid {lower : List Char} {triggers : List (List Char)} :
    ∀ m ∈ scanMarks lower triggers, ValidMark lower.length m := by
  intro m hm
  obtain ⟨tr, _, hm'⟩ := mem_scanMarks.mp hm
  have := collectMarks_sound lower tr (lower.length + 1) 0 (by omega) m hm'
  exact ⟨by omega, this.2.2.1⟩

/-! ## Lemmas: sorting and merging the marks -/

instance : IsTotal (Nat × Nat) (fun a b => a.1 ≤ b.1) :=
  ⟨fun a b => Nat.le_total a.1 b.1⟩

instance : IsTrans (Nat × Nat) (fun a b => a.1 ≤ b.1) :=
  ⟨fun _ _ _ hab hbc => le_trans hab hbc⟩

theorem mem_sortMarks {marks : List (Nat × Nat)} {m : Nat × Nat} :
    m ∈ sortMarks marks ↔ m ∈ marks :=
  List.mem_insertionSort _

theorem sortMarks_pairwise (marks : List (Nat × Nat)) :
    (sortMarks marks).Pairwise (fun a b => a.1 ≤ b.1) :=
  List.sorted_insertionSort _ marks

theorem mergeMarks_valid_chain (len : Nat) :
    ∀ (ms acc : List (Nat × Nat)),
      (∀ m ∈ acc, ValidMark len m) →
      List.Chain' (fun a b => b.2 < a.1) acc →
      (∀ m ∈ ms, ValidMark len m) →
      (∀ m ∈ mergeMarks acc ms, ValidMark len m) ∧
        List.Chain' (fun a b => a.2 < b.1) (mergeMarks acc ms) := by
  intro ms
  induction ms with
  | nil =>
    intro acc haccV haccC _
    refine ⟨fun m hm => haccV m (List.mem_reverse.mp hm), ?_⟩
    exact List.chain'_reverse.mpr haccC
  | cons m rest ih =>
    intro acc haccV haccC hmsV
    match acc with
    | [] =>
      simp only [mergeMarks]
      exact ih [m] (by simpa using hmsV m (List.mem_cons_self _ _))
        (List.chain'_singleton m) (fun x hx => hmsV x (List.mem_cons_of_mem _ hx))
    | l :: t =>
      simp only [mergeMarks]
      by_cases hml : m.1 ≤ l.2
      · rw [if_pos hml]
        have hlV := haccV l (List.mem_cons_self _ _)
        have hmV := hmsV m (List.mem_cons_self _ _)
        refine ih ((l.1, max l.2 m.2) :: t) ?_ ?_
          (fun x hx => hmsV x (List.mem_cons_of_mem _ hx))
        · intro x hx
          rcases List.mem_cons.mp hx with rfl | hx'
          · exact ⟨le_trans hlV.1 (le_max_left _ _), max_le hlV.2 hmV.2⟩
          · exact haccV x (List.mem_cons_of_mem _ hx')
        · rw [List.chain'_cons'] at haccC ⊢
          exact ⟨fun y hy => haccC.1 y hy, haccC.2⟩
      · rw [if_neg hml]
        refine ih (m :: l :: t) ?_ ?_
          (fun x hx => hmsV x (List.mem_cons_of_mem _ hx))
        · intro x hx
          rcases List.mem_cons.mp hx with rfl | hx'
          · exact hmsV x (List.mem_cons_self _ _)
          · exact haccV x hx'
        · rw [List.chain'_cons']
          refine ⟨fun y hy => ?_, haccC⟩
          simp only [List.head?_cons, Option.mem_def, Option.some.injEq] at hy
          subst hy
          omega

theorem mergeMarks_covers_acc :
    ∀ (ms acc : List (Nat × Nat)) (x : Nat × Nat), x ∈ acc →
      ∃ y ∈ mergeMarks acc ms, y.1 ≤ x.1 ∧ x.2 ≤ y.2 := by
  intro ms
  induction ms with
  | nil =>
    intro acc x hx
    exact ⟨x, List.mem_reverse.mpr hx, le_rfl, le_rfl⟩
  | cons m rest ih =>
    intro acc x hx
    match acc with
    | [] => cases hx
    | l :: t =>
      simp only [mergeMarks]
      by_cases hml : m.1 ≤ l.2
      · rw [if_pos hml]
        rcases List.mem_cons.mp hx with rfl | hx'
        · obtain ⟨y, hy, hy1, hy2⟩ :=
            ih ((x.1, max x.2 m.2) :: t) (x.1, max x.2 m.2) (List.mem_cons_self _ _)
          exact ⟨y, hy, hy1, le_trans (le_max_left _ _) hy2⟩
        · exact ih _ x (List.mem_cons_of_mem _ hx')
      · rw [if_neg hml]
        exact ih _ x (List.mem_cons_of_mem _ hx)

theorem mergeMarks_covers :
    ∀ (ms acc : List (Nat × Nat)),
      List.Pairwise (fun a b : Nat × Nat => a.1 ≤ b.1) ms →
      (∀ l, acc.head? = some l → ∀ m ∈ ms, l.1 ≤ m.1) →
      ∀ x ∈ ms, ∃ y ∈ mergeMarks acc ms, y.1 ≤ x.1 ∧ x.2 ≤ y.2 := by
  intro ms
  induction ms with
  | nil =>
    intro acc _ _ x hx
    cases hx
  | cons m rest ih =>
    intro acc hsort hhead x hx
    have hsort' := (List.pairwise_cons.mp hsort).2
    have hmrest := (List.pairwise_cons.mp hsort).1
    match acc with
    | [] =>
      simp only [mergeMarks]
      rcases List.mem_cons.mp hx with rfl | hx'
      · exact mergeMarks_covers_acc rest [x] x (List.mem_cons_self _ _)
      · exact ih [m] hsort' (fun l hl y hy => by
          simp only [List.head?_cons, Option.some.injEq] at hl
          exact hl ▸ hmrest y hy) x hx'
    | l :: t =>
      simp only [mergeMarks]
      have hlm : l.1 ≤ m.1 := hhead l rfl m (List.mem_cons_self _ _)
      by_cases hml : m.1 ≤ l.2
      · rw [if_pos hml]
        rcases List.mem_cons.mp hx with rfl | hx'
        · obtain ⟨y, hy, hy1, hy2⟩ :=
            mergeMarks_covers_acc rest ((l.1, max l.2 x.2) :: t) (l.1, max l.2 x.2)
              (List.mem_cons_self _ _)
          exact ⟨y, hy, le_trans hy1 hlm, le_trans (le_max_right _ _) hy2⟩
        · exact ih _ hsort' (fun l' hl' y hy => by
            simp only [List.head?_cons, Option.some.injEq] at hl'
            subst hl'
            exact le_trans hlm (hmrest y hy)) x hx'
      · rw [if_neg hml]
        rcases List.mem_cons.mp hx with rfl | hx'
        · exact mergeMarks_covers_acc rest (x :: l :: t) x (List.mem_cons_self _ _)
        · exact ih _ hsort' (fun l' hl' y hy => by
            simp only [List.head?_cons, Option.some.injEq] at hl'
            subst hl'
            exact hmrest y hy) x hx'

/-! ## Lemmas: segment emission and the round-trip -/

theorem jsSubstring_of_le {s : List Char} {a b : Nat} (hab : a ≤ b) (hb : b ≤ s.length) :
    jsSubstring s a b = (s.take b).drop a := by
  unfold jsSubstring
  have h1 : min a s.length = a := min_eq_left (le_trans hab hb)
  have h2 : min b s.length = b := min_eq_left hb
  simp only [h1, h2, max_eq_right hab, min_eq_left hab]

theorem drop_take_append_drop (text : List Char) {a b : Nat} (hab : a ≤ b) :
    (text.take b).drop a ++ text.drop b = text.drop a := by
  rw [show b = a + (b - a) from by omega, ← List.take_drop, ← List.drop_drop,
    List.take_append_drop]

theorem chain_spanChain (len : Nat) :
    ∀ (ms : List (Nat × Nat)) (pos : Nat),
      (∀ m ∈ ms, ValidMark len m) →
      List.Chain' (fun a b => a.2 < b.1) ms →
      pos ≤ len → (∀ m, ms.head? = some m → pos ≤ m.1) →
      spanChain len pos ms := by
  intro ms
  induction ms with
  | nil =>
    intro pos _ _ hpos _
    exact hpos
  | cons m rest ih =>
    intro pos hV hC hpos hhead
    have hmV := hV m (List.mem_cons_self _ _)
    have hC' := List.chain'_cons'.mp hC
    refine ⟨hhead m rfl, hmV.1, hmV.2, ?_⟩
    refine ih m.2 (fun x hx => hV x (List.mem_cons_of_mem _ hx)) hC'.2 hmV.2 ?_
    intro x hx
    exact le_of_lt (hC'.1 x hx)

theorem segmentsFrom_join (text : List Char) :
    ∀ (ms : List (Nat × Nat)) (pos : Nat), spanChain text.length pos ms →
      joinSegments (segmentsFrom text pos ms) = text.drop pos := by
  intro ms
  induction ms with
  | nil =>
    intro pos hpos
    show joinSegments [⟨jsSubstring text pos text.length, false⟩] = text.drop pos
    simp only [joinSegments, List.map_cons, List.map_nil, List.flatten_cons,
      List.flatten_nil, List.append_nil]
    rw [jsSubstring_of_le hpos le_rfl, List.take_length]
  | cons m rest ih =>
    intro pos hchain
    obtain ⟨h1, h2, h3, h4⟩ := hchain
    show joinSegments (⟨jsSubstring text pos m.1, false⟩ :: ⟨jsSubstring text m.1 m.2, true⟩ ::
      segmentsFrom text m.2 rest) = text.drop pos
    have hrest := ih m.2 h4
    simp only [joinSegments, List.map_cons, List.flatten_cons] at hrest ⊢
    rw [hrest, jsSubstring_of_le h2 h3, drop_take_append_drop text h2,
      jsSubstring_of_le h1 (le_trans h2 h3), drop_take_append_drop text h1]

/-- The merged spans are valid and strictly ordered, for any text and tag. -/
theorem mergedSpans_valid_chain (text : List Char) (tag : String) :
    (∀ m ∈ mergedSpans text tag, ValidMark text.length m) ∧
      List.Chain' (fun a b => a.2 < b.1) (mergedSpans text tag) := by
  unfold mergedSpans
  have hlen : (lowerOf text).length = text.length := List.length_map _ _
  refine mergeMarks_valid_chain text.length _ [] (by simp) List.chain'_nil ?_
  intro m hm
  have := scanMarks_valid m (mem_sortMarks.mp hm)
  rwa [hlen] at this

theorem mergedSpans_spanChain (text : List Char) (tag : String) :
    spanChain text.length 0 (mergedSpans text tag) := by
  obtain ⟨hV, hC⟩ := mergedSpans_valid_chain text tag
  exact chain_spanChain text.length _ 0 hV hC (Nat.zero_le _) (fun m _ => Nat.zero_le _)

/-- C1 helper: the round-trip equality for the non-trivial branch. -/
theorem highlightWords_join (text : List Char) (tag : String) :
    joinSegments (highlightWords text tag) = text := by
  unfold highlightWords
  by_cases h : (TILT_TRIGGERS tag).isEmpty
  · rw [if_pos h]
    simp [joinSegments]
  · rw [if_neg h]
    have := segmentsFrom_join text (mergedSpans text tag) 0 (mergedSpans_spanChain text tag)
    rw [this, List.drop_zero]

/-! ## Lemmas: `jsIncludes` is substring containment -/

theorem jsIncludes_iff_substring (hay pat : List Char) :
    jsIncludes hay pat = true ↔ pat <:+: hay := by
  constructor
  · intro h
    obtain ⟨j, hj⟩ := Option.isSome_iff_exists.mp h
    have hpre : pat <+: hay.drop j :=
      List.isPrefixOf_iff_prefix.mp (indexOfFrom_prefix_of_some hj)
    exact hpre.isInfix.trans (List.drop_suffix j hay).isInfix
  · rintro ⟨s, t, rfl⟩
    have hocc : pat.isPrefixOf ((s ++ pat ++ t).drop s.length) = true := by
      rw [List.append_assoc, List.drop_left]
      exact List.isPrefixOf_iff_prefix.mpr (List.prefix_append pat t)
    obtain ⟨k, hk, _⟩ := indexOfFrom_complete (s ++ pat ++ t) pat
      ((s ++ pat ++ t).length + 1) 0 s.length le_rfl (Nat.zero_le _)
      (by simp [List.length_append]) hocc
    unfold jsIncludes
    rw [hk]
    rfl

/-! ## Lemmas: the whitespace split -/

theorem splitWsGoAux_ne_nil : ∀ (fuel : Nat) (cur s : List Char),
    splitWsGoAux fuel cur s ≠ [] := by
  intro fuel
  induction fuel with
  | zero =>
    intro cur s
    simp [splitWsGoAux]
  | succ f ih =>
    intro cur s
    cases s with
    | nil => simp [splitWsGoAux]
    | cons c rest =>
      simp only [splitWsGoAux]
      by_cases hc : isWs c = true
      · rw [if_pos hc]
        simp
      · rw [if_neg hc]
        exact ih _ _

theorem splitWs_length_pos (s : List Char) : 1 ≤ (splitWs s).length :=
  List.length_pos.mpr (splitWsGoAux_ne_nil s.length [] s)

theorem splitWs_head_empty {c : Char} (rest : List Char) (hc : isWs c = true) :
    [] ∈ splitWs (c :: rest) := by
  show [] ∈ splitWsGoAux (c :: rest).length [] (c :: rest)
  simp only [List.length_cons, splitWsGoAux]
  rw [if_pos hc]
  exact List.mem_cons_self _ _

theorem getLast_of_suffix {l₁ l₂ : List Char} (h : l₁ <:+ l₂) (h₁ : l₁ ≠ [])
    (h₂ : l₂ ≠ []) : l₁.getLast h₁ = l₂.getLast h₂ := by
  obtain ⟨pre, rfl⟩ := h
  exact (List.getLast_append' pre l₁ h₁).symm

theorem splitWsGoAux_trailing : ∀ (fuel : Nat) (cur s : List Char),
    s.length ≤ fuel → ∀ (h : s ≠ []), isWs (s.getLast h) = true →
      [] ∈ splitWsGoAux fuel cur s := by
  intro fuel
  induction fuel with
  | zero =>
    intro cur s hf h _
    cases s with
    | nil => exact absurd rfl h
    | cons c rest => simp at hf
  | succ f ih =>
    intro cur s hf h hws
    cases s with
    | nil => exact absurd rfl h
    | cons c rest =>
      simp only [splitWsGoAux]
      by_cases hrne : rest = []
      · subst hrne
        have hc : isWs c = true := by
          simpa [List.getLast_singleton] using hws
        rw [if_pos hc]
        refine List.mem_cons_of_mem _ ?_
        cases f <;> simp [splitWsGoAux]
      · have hlast : (c :: rest).getLast h = rest.getLast hrne := List.getLast_cons hrne
        rw [hlast] at hws
        by_cases hc : isWs c = true
        · rw [if_pos hc]
          refine List.mem_cons_of_mem _ ?_
          by_cases h2 : rest.dropWhile isWs = []
          · rw [h2]
            cases f <;> simp [splitWsGoAux]
          · have hsuf : rest.dropWhile isWs <:+ rest := List.dropWhile_suffix isWs
            have hlen2 : (rest.dropWhile isWs).length ≤ f := by
              have := hsuf.length_le
              simp only [List.length_cons] at hf
              omega
            have hlast2 : isWs ((rest.dropWhile isWs).getLast h2) = true := by
              rw [getLast_of_suffix hsuf h2 hrne]
              exact hws
            exact ih [] _ hlen2 h2 hlast2
        · rw [if_neg hc]
          refine ih (c :: cur) rest ?_ hrne hws
          simp only [List.length_cons] at hf
          omega

theorem splitWs_trailing {s : List Char} (h : s ≠ []) (hws : isWs (s.getLast h) = true) :
    [] ∈ splitWs s :=
  splitWsGoAux_trailing s.length [] s le_rfl h hws

theorem length_filter_lt_of_mem_not {α : Type} {l : List α} {p : α → Bool} {x : α}
    (hx : x ∈ l) (hpx : p x = false) : (l.filter p).length < l.length := by
  induction l with
  | nil => cases hx
  | cons a l ih =>
    rcases List.mem_cons.mp hx with rfl | hx'
    · rw [List.filter_cons, if_neg (by simp [hpx])]
      exact Nat.lt_succ_of_le (List.length_filter_le p l)
    · rw [List.filter_cons]
      by_cases hpa : p a = true
      · rw [if_pos (by simp [hpa])]
        simpa using Nat.succ_lt_succ (ih hx')
      · rw [if_neg (by simpa using hpa)]
        exact Nat.lt_succ_of_lt (ih hx')

/-! ## Lemmas: characters, lowercasing and whitespace -/

theorem toNat_ofNat_of_lt {n : Nat} (h : n < 55296) : (Char.ofNat n).toNat = n := by
  unfold Char.ofNat
  rw [dif_pos (Or.inl h)]
  rfl

theorem isWs_toLower (c : Char) : isWs (Char.toLower c) = isWs c := by
  unfold Char.toLower
  by_cases h : c.toNat ≥ 65 ∧ c.toNat ≤ 90
  · rw [if_pos h]
    have ht : (Char.ofNat (c.toNat + 32)).toNat = c.toNat + 32 :=
      toNat_ofNat_of_lt (by omega)
    have h1 : isWs (Char.ofNat (c.toNat + 32)) = false := by
      simp only [isWs, ht, Bool.or_eq_false_iff, Bool.and_eq_false_iff,
        decide_eq_false_iff_not]
      omega
    have h2 : isWs c = false := by
      simp only [isWs, Bool.or_eq_false_iff, Bool.and_eq_false_iff,
        decide_eq_false_iff_not]
      omega
    rw [h1, h2]
  · rw [if_neg h]

/-- `jsIncludes` agrees with the mathematical substring (infix) relation. -/
theorem jsIncludes_eq_decide (hay pat : List Char) :
    jsIncludes hay pat = decide (pat <:+: hay) := by
  by_cases h : pat <:+: hay
  · rw [decide_eq_true h]
    exact (jsIncludes_iff_substring hay pat).mpr h
  · rw [decide_eq_false h]
    exact Bool.eq_false_iff.mpr (fun hc => h ((jsIncludes_iff_substring hay pat).mp hc))

/-! ## Lemmas: the renderer -/

theorem renderModel_issueCount (d : ScoredResult) (t r : String) :
    (renderModel d t r).issueCount = issueCount d := rfl

theorem renderModel_fmCount (d : ScoredResult) (t r : String) :
    (renderModel d t r).fmCount = fmCount d := rfl

theorem renderModel_verdict (d : ScoredResult) (t r : String) :
    (renderModel d t r).verdict = (verdictPair (issueCount d) (fmCount d)).1 := rfl

theorem renderModel_vClass (d : ScoredResult) (t r : String) :
    (renderModel d t r).vClass = (verdictPair (issueCount d) (fmCount d)).2 := rfl

theorem renderModel_fmRows (d : ScoredResult) (t r : String) :
    (renderModel d t r).fmRows =
      [_fm "UDDS" "Substituted reassurance for substance" (failureModesOf d).UDDS
        FMEntry.udds_state,
       _fm "DCE" "Deferred the hard part to later" (failureModesOf d).DCE
        FMEntry.dce_state,
       _fm "CCA" "Collapsed constraints into vague agreement" (failureModesOf d).CCA
        FMEntry.cca_state] := rfl

theorem fm_eq_fmRowSpec (name desc : String) (obj : Option FMEntry)
    (stateKey : FMEntry → Option String) :
    _fm name desc obj stateKey = fmRowSpec name desc obj stateKey := by
  cases obj with
  | none => rfl
  | some o =>
    simp only [_fm, fmRowSpec]
    by_cases hc : strIncludes ((stateKey o).getD "") "CONFIRMED" = true
    · simp [hc]
    · by_cases hp : strIncludes ((stateKey o).getD "") "PROBABLE" = true
      · simp [hc, hp]
      · simp [hc, hp]

theorem verdictPair_snd (ic fc : Nat) :
    (verdictPair ic fc).2 =
      if ic = 0 ∧ fc = 0 then "nti-v-clean"
      else if fc ≥ 2 ∨ ic ≥ 6 then "nti-v-critical"
      else "nti-v-warning" := by
  unfold verdictPair
  split_ifs <;> rfl

theorem two_le_length_of_two_mem {α : Type} {l : List α} {a b : α}
    (ha : a ∈ l) (hb : b ∈ l) (hne : a ≠ b) : 2 ≤ l.length := by
  cases l with
  | nil => cases ha
  | cons x l =>
    rcases List.mem_cons.mp ha with rfl | ha'
    · rcases List.mem_cons.mp hb with rfl | hb'
      · exact absurd rfl hne
      · have := List.length_pos_of_mem hb'
        simp only [List.length_cons]
        omega
    · have := List.length_pos_of_mem ha'
      simp only [List.length_cons]
      omega

/-! ## Lemmas: matched segments are the merged spans -/

theorem segmentsFrom_filter_isMatch (text : List Char) :
    ∀ (ms : List (Nat × Nat)) (pos : Nat),
      (segmentsFrom text pos ms).filter (fun s => s.isMatch) =
        ms.map (fun m => ⟨jsSubstring text m.1 m.2, true⟩) := by
  intro ms
  induction ms with
  | nil =>
    intro pos
    rfl
  | cons m rest ih =>
    intro pos
    simp only [segmentsFrom, List.filter_cons, List.map_cons]
    simp [ih]

theorem mergedSpans_cover (text : List Char) (tag : String) :
    ∀ mk ∈ scanMarks (lowerOf text) (sortedTriggers tag),
      ∃ y ∈ mergedSpans text tag, y.1 ≤ mk.1 ∧ mk.2 ≤ y.2 := by
  intro mk hmk
  exact mergeMarks_covers _ [] (sortMarks_pairwise _) (fun l hl => by cases hl)
    mk (mem_sortMarks.mpr hmk)

/-! ## The claims -/

/-- C1: for every input text and every category tag (including unknown tags
and tags with no triggers), concatenating in order the text fields of all
segments produced by `highlightWords` yields exactly the original input
text — the lossless round-trip invariant. -/
theorem C1_highlight_roundtrip (text : List Char) (tag : String) :
    joinSegments (highlightWords text tag) = text :=
  highlightWords_join text tag

/-- C3: the matched segments `highlightWords` emits are exactly the merged
spans (sorted by start, each span starting at or before the previous merged
span's end absorbed into it); the merged spans are in bounds and pairwise
disjoint in order, and every scanned occurrence span is contained in one of
them.  For the text `act now, act now` and category `T8_PRESSURE_OPTIMIZATION`
(whose triggers include `act now`), exactly two disjoint matched segments are
produced. -/
theorem C3_merge_disjoint_cover (text : List Char) (tag : String) :
    ((highlightWords text tag).filter (fun s => s.isMatch) =
        (mergedSpans text tag).map (fun m => ⟨jsSubstring text m.1 m.2, true⟩)) ∧
      (∀ m ∈ mergedSpans text tag, m.1 ≤ m.2 ∧ m.2 ≤ text.length) ∧
      List.Chain' (fun a b => a.2 < b.1) (mergedSpans text tag) ∧
      (∀ mk ∈ scanMarks (lowerOf text) (sortedTriggers tag),
        ∃ y ∈ mergedSpans text tag, y.1 ≤ mk.1 ∧ mk.2 ≤ y.2) ∧
      (highlightWords ("act now, act now".data) ("T8_PRESSURE_OPTIMIZATION")).filter
          (fun s => s.isMatch) =
        [⟨"act now".data, true⟩, ⟨"act now".data, true⟩] := by
  refine ⟨?_, (mergedSpans_valid_chain text tag).1, (mergedSpans_valid_chain text tag).2,
    mergedSpans_cover text tag, by decide⟩
  unfold highlightWords
  by_cases h : (TILT_TRIGGERS tag).isEmpty
  · rw [if_pos h]
    have hTt : TILT_TRIGGERS tag = [] := List.isEmpty_iff.mp h
    have hms : mergedSpans text tag = [] := by
      unfold mergedSpans sortMarks scanMarks sortedTriggers
      rw [hTt]
      rfl
    rw [hms]
    rfl
  · rw [if_neg h]
    exact segmentsFrom_filter_isMatch text (mergedSpans text tag) 0

/-- C8: the scan records every case-insensitive occurrence of every trigger
phrase of the looked-up category: any occurrence of a trigger in the
lowercased text — including one beginning inside another occurrence, since
the search resumes one past each found occurrence's start — appears among
the scanned marks before merging. -/
theorem C8_scan_records_every_occurrence (text : List Char) (tag : String)
    (pat : List Char) (hpat : pat ∈ (TILT_TRIGGERS tag).map String.data) (j : Nat)
    (hj : j + pat.length ≤ text.length)
    (hocc : pat.isPrefixOf ((lowerOf text).drop j) = true) :
    (j, j + pat.length) ∈ scanMarks (lowerOf text) (sortedTriggers tag) := by
  have hlen : (lowerOf text).length = text.length := List.length_map _ _
  refine mem_scanMarks.mpr ⟨pat, ?_, ?_⟩
  · exact (List.mem_insertionSort _).mpr hpat
  · exact collectMarks_complete (lowerOf text) pat ((lowerOf text).length + 1) 0 j
      (by omega) (Nat.zero_le _) (by omega) hocc

/-- Witness for C8 at a concrete overlapping pair of occurrences: in
`momentumomentum` the trigger `momentum` occurs at 0 and again at 7, inside
the first occurrence; the occurrence at 7 is recorded. -/
theorem C8_witness :
    ((7, 15) : Nat × Nat) ∈ scanMarks (lowerOf ("momentumomentum".data))
      (sortedTriggers ("T8_PRESSURE_OPTIMIZATION")) :=
  C8_scan_records_every_occurrence ("momentumomentum".data)
    ("T8_PRESSURE_OPTIMIZATION") ("momentum".data) (by decide) 7 (by decide) (by decide)

/-- C2: the verdict of `render` is clean exactly when both counts are zero,
critical when the active-failure-mode count is at least 2 or the issue count
at least 6, and a warning otherwise; the clean verdict is the fixed message;
a warning with zero active failure modes omits the failure-mode clause; and
two distinct failure-mode codes whose resolved states contain `CONFIRMED`
force the critical verdict regardless of issue count. -/
theorem C2_verdict_classification (d : ScoredResult) (t r : String) :
    ((renderModel d t r).vClass =
        (if issueCount d = 0 ∧ fmCount d = 0 then "nti-v-clean"
         else if fmCount d ≥ 2 ∨ issueCount d ≥ 6 then "nti-v-critical"
         else "nti-v-warning")) ∧
      (issueCount d = 0 ∧ fmCount d = 0 →
        (renderModel d t r).verdict = "This message is structurally clean.") ∧
      (fmCount d = 0 → ¬ issueCount d = 0 → issueCount d < 6 →
        (renderModel d t r).verdict =
          toString (issueCount d) ++ " issue" ++
            (if issueCount d ≠ 1 then "s" else "") ++ " found.") ∧
      (∀ k1 k2 : String, k1 ∈ ["UDDS", "DCE", "CCA"] → k2 ∈ ["UDDS", "DCE", "CCA"] →
        k1 ≠ k2 →
        strIncludes (fmChainState (fmGet (failureModesOf d) k1)) "CONFIRMED" = true →
        strIncludes (fmChainState (fmGet (failureModesOf d) k2)) "CONFIRMED" = true →
        (renderModel d t r).vClass = "nti-v-critical") := by
  refine ⟨?_, ?_, ?_, ?_⟩
  · rw [renderModel_vClass, verdictPair_snd]
  · intro h
    rw [renderModel_verdict]
    unfold verdictPair
    rw [if_pos h]
  · intro hfc hic0 hic6
    rw [renderModel_verdict]
    unfold verdictPair
    rw [if_neg (fun hcl => hic0 hcl.1), if_neg (by omega),
      if_neg (show ¬ fmCount d ≠ 0 from by omega)]
    have h1 : 1 ≤ issueCount d := by omega
    set ic := issueCount d with hic
    clear_value ic
    interval_cases ic <;> decide
  · intro k1 k2 hk1 hk2 hne h1 h2
    have hA1 : fmActive d k1 = true := by simp [fmActive, h1]
    have hA2 : fmActive d k2 = true := by simp [fmActive, h2]
    have hfc : 2 ≤ fmCount d :=
      two_le_length_of_two_mem (List.mem_filter.mpr ⟨hk1, hA1⟩)
        (List.mem_filter.mpr ⟨hk2, hA2⟩) hne
    rw [renderModel_vClass, verdictPair_snd, if_neg (by omega), if_pos (Or.inl hfc)]

/-- Witness for C2's two-CONFIRMED clause at a concrete input: a result with
UDDS and DCE entries whose states are `CONFIRMED_X` renders critical. -/
theorem C2_witness :
    (renderModel
      { emptyResult with
        parent_failure_modes := some
          ⟨some ⟨some "CONFIRMED_X", none, none⟩,
           some ⟨none, some "CONFIRMED_X", none⟩, none⟩ }
      "" "abcdef").vClass = "nti-v-critical" :=
  (C2_verdict_classification _ "" "abcdef").2.2.2 "UDDS" "DCE" (by decide) (by decide)
    (by decide) (by decide) (by decide)

/-- C4: `render` resolves each of the three failure-mode codes exactly as
the spec's state classifier: a missing entry is CLEAR/inactive rather than
an error, and a present state string is classified by substring containment
of `CONFIRMED` (DETECTED, red, active) then `PROBABLE` (PROBABLE, amber,
active), else CLEAR (green, inactive). -/
theorem C4_failure_mode_rows (d : ScoredResult) (t r : String) :
    (renderModel d t r).fmRows =
      [fmRowSpec "UDDS" "Substituted reassurance for substance"
        (failureModesOf d).UDDS FMEntry.udds_state,
       fmRowSpec "DCE" "Deferred the hard part to later"
        (failureModesOf d).DCE FMEntry.dce_state,
       fmRowSpec "CCA" "Collapsed constraints into vague agreement"
        (failureModesOf d).CCA FMEntry.cca_state] := by
  rw [renderModel_fmRows, fm_eq_fmRowSpec, fm_eq_fmRowSpec, fm_eq_fmRowSpec]

/-- C5: the issue count `render` computes is the number of falsy flags among
q1, q2, q3 plus the hedge-marker, reassurance-marker and tilt-taxonomy
counts. -/
theorem C5_issue_count (d : ScoredResult) (t r : String) :
    (renderModel d t r).issueCount =
      ([q1Of d, q2Of d, q3Of d].filter (fun q => q = 0)).length +
        (hedgeMarkersOf d).length + (reassuranceMarkersOf d).length +
        (tiltOf d).length := by
  rw [renderModel_issueCount]
  unfold issueCount
  by_cases h1 : q1Of d = 0 <;> by_cases h2 : q2Of d = 0 <;> by_cases h3 : q3Of d = 0 <;>
    simp [List.filter_cons, h1, h2, h3]

/-- C6 counterexample: two invocations of `render` on the same result and
the same text but with different random draws produce different presentation
models (the random identifier is embedded in the output), so the full output
is not a function of the pair (result, text) alone. -/
theorem C6_uid_counterexample :
    ¬ renderModel emptyResult "" "aaaaaa" = renderModel emptyResult "" "bbbbbb" := by
  intro h
  have huid : ("nti_" ++ "aaaaaa" : String) = "nti_" ++ "bbbbbb" :=
    congrArg Presentation.uid h
  exact absurd huid (by decide)

/-- C6 as amended: every component of the presentation model other than the
random uid identifier is a pure function of the pair (result, text): two
invocations with the same arguments and any two random draws agree after
blanking the identifier. -/
theorem C6_pure_up_to_uid (d : ScoredResult) (t r1 r2 : String) :
    eraseUid (renderModel d t r1) = eraseUid (renderModel d t r2) := rfl

/-- C7: the emotional-charge value equals the high-intensity lexicon hit
count weighted 3 plus the moderate-intensity hit count weighted 1.5, scaled
by 800 over the word count, rounded to nearest and clamped, and it always
lies in [0, 100]. -/
theorem C7_emotional_charge (text : List Char) :
    ((enrichText text).emo =
        min 100 (jsRound
          ((((EMO_HIGH.filter (fun w => jsIncludes (lowerOf text) w.data)).length : ℚ) * 3 +
            ((EMO_MOD.filter (fun w => jsIncludes (lowerOf text) w.data)).length : ℚ) *
              (3 / 2)) *
            (800 / ((enrichText text).wordCount : ℚ))))) ∧
      0 ≤ (enrichText text).emo ∧ (enrichText text).emo ≤ 100 := by
  have hlen : 1 ≤ (splitWs (lowerOf text)).length := splitWs_length_pos _
  have htot : max (splitWs (lowerOf text)).length 1 = (splitWs (lowerOf text)).length :=
    max_eq_left hlen
  have hemo : (enrichText text).emo =
      min 100 (jsRound
        ((((EMO_HIGH.filter (fun w => jsIncludes (lowerOf text) w.data)).length : ℚ) * 3 +
          ((EMO_MOD.filter (fun w => jsIncludes (lowerOf text) w.data)).length : ℚ) *
            (3 / 2)) /
          ((max (splitWs (lowerOf text)).length 1 : Nat) : ℚ) * 800)) := rfl
  have hcast : ((max (splitWs (lowerOf text)).length 1 : Nat) : ℚ) =
      ((enrichText text).wordCount : ℚ) := by
    rw [htot]
    rfl
  refine ⟨?_, ?_, ?_⟩
  · rw [hemo, div_mul_eq_mul_div, mul_div_assoc, hcast]
  · rw [hemo]
    refine le_min (by norm_num) ?_
    unfold jsRound
    refine Int.le_floor.mpr ?_
    rw [Int.cast_zero]
    positivity
  · rw [hemo]
    exact min_le_left _ _

/-- C9: the vague and specific counts are the numbers of distinct lexicon
words occurring as substrings of the lowercased text (containment, not
tokenised equality); in particular the text `our community values leadership`
has a vague count of at least 3. -/
theorem C9_lexicon_substring_counts (text : List Char) :
    ((enrichText text).vague =
        (VAGUE_WORDS.filter (fun w => decide (w.data <:+: lowerOf text))).length) ∧
      ((enrichText text).specific =
        (SPECIFIC_WORDS.filter (fun w => decide (w.data <:+: lowerOf text))).length) ∧
      3 ≤ (enrichText ("our community values leadership".data)).vague := by
  refine ⟨?_, ?_, by decide⟩
  · show (VAGUE_WORDS.filter (fun w => jsIncludes (lowerOf text) w.data)).length = _
    congr 1
    refine List.filter_congr ?_
    intro w _
    rw [jsIncludes_eq_decide]
  · show (SPECIFIC_WORDS.filter (fun w => jsIncludes (lowerOf text) w.data)).length = _
    congr 1
    refine List.filter_congr ?_
    intro w _
    rw [jsIncludes_eq_decide]

/-- C10: the reported word count is the length of the whitespace-run split,
which keeps empty boundary fields: it is at least 1 for every input
(including the empty string), the input consisting of a space, the letter a
and a space reports word count 3, and any input with leading or trailing
whitespace reports strictly more words than its number of non-empty
fields. -/
theorem C10_word_count_boundary_fields :
    (∀ t : List Char, 1 ≤ (enrichText t).wordCount) ∧
      (enrichText (" a ".data)).wordCount = 3 ∧
      (∀ (t : List Char) (h : t ≠ []),
        isWs (t.head h) = true ∨ isWs (t.getLast h) = true →
        ((splitWs (lowerOf t)).filter (fun w => !w.isEmpty)).length <
          (enrichText t).wordCount) := by
  refine ⟨fun t => splitWs_length_pos (lowerOf t), by decide, ?_⟩
  intro t h hws
  show ((splitWs (lowerOf t)).filter (fun w => !w.isEmpty)).length <
    (splitWs (lowerOf t)).length
  have hmem : [] ∈ splitWs (lowerOf t) := by
    rcases hws with hh | hl
    · cases t with
      | nil => exact absurd rfl h
      | cons c rest =>
        have hc : isWs (Char.toLower c) = true := by
          rw [isWs_toLower]
          exact hh
        exact splitWs_head_empty (lowerOf rest) hc
    · have hne : lowerOf t ≠ [] := by
        cases t with
        | nil => exact absurd rfl h
        | cons c rest => simp [lowerOf]
      have hlast : isWs ((lowerOf t).getLast hne) = true := by
        unfold lowerOf
        rw [List.getLast_map, isWs_toLower]
        exact hl
      exact splitWs_trailing hne hlast
  exact length_filter_lt_of_mem_not hmem (by decide)

end NTI
